import Mathlib

/-
Verification of the poon-llm streaming client.

Shallow embedding of the repository's core pipeline:
  - src/util.js       : parseJson, extractTags, parseXml, parseDelta, consumeStreamAsync
  - src/unnamed/part_001 (the current main module) : the chat call's response handler,
    its coalescing update scheduler (msg, isUpdating, chain, count), handleError, and
    finalResponse.

JavaScript values produced by JSON.parse are modelled by the inductive JSValue; member
access on null or undefined raises (Except.error), on any other value it yields the
field or undefined, exactly as in JS.  JSON.parse itself is an external primitive of
the JS environment, so it enters the model as an oracle parameter
(jsonParse : String → Option JSValue); every theorem quantifies over the oracle.

The asynchronous response handler is embedded as a small-step transition system over
explicit session states; one Action corresponds to one atomic event of the Node event
loop (a line event, the start or completion of a queued chain task, a cooldown timer
firing, stream close, the settlement of the awaited chain, the terminal callback
completing).  Quantifying over action lists quantifies over every timing of delta
arrival, callback completion and cooldown expiry.
-/

namespace PoonLLM

/-! ## JavaScript value model -/

/-- Result of JSON.parse, plus the distinguished values undefined and null. -/
inductive JSValue where
  | vNull
  | vUndefined
  | vBool (b : Bool)
  | vNum (n : Int)
  | vStr (s : String)
  | vArr (xs : List JSValue)
  | vObj (fields : List (String × JSValue))

/-- JS truthiness: null, undefined, false, 0 and the empty string are falsy;
arrays and objects are always truthy. -/
def truthy : JSValue → Bool
  | .vNull => false
  | .vUndefined => false
  | .vBool b => b
  | .vNum n => n != 0
  | .vStr s => s != ""
  | .vArr _ => true
  | .vObj _ => true

/-- Association-list lookup for object fields (insertion order, first match). -/
def fieldLookup : List (String × JSValue) → String → Option JSValue
  | [], _ => none
  | (k', v) :: fs, k => if k' = k then some v else fieldLookup fs k

/-- JS member access `v.k`: throws on null and undefined, yields the field of an
object or undefined when absent, and undefined on every other primitive. -/
def getField : JSValue → String → Except Unit JSValue
  | .vNull, _ => .error ()
  | .vUndefined, _ => .error ()
  | .vObj fs, k => .ok ((fieldLookup fs k).getD .vUndefined)
  | _, _ => .ok .vUndefined

/-- JS index access `v[i]`: throws on null and undefined, yields the element of an
array (undefined out of range), the one-character string of a string, and undefined
on other primitives. -/
def getIndex : JSValue → Nat → Except Unit JSValue
  | .vNull, _ => .error ()
  | .vUndefined, _ => .error ()
  | .vArr xs, i => .ok (xs.getD i .vUndefined)
  | .vStr s, i => .ok ((s.data.get? i).elim .vUndefined (fun c => .vStr (String.mk [c])))
  | _, _ => .ok .vUndefined

mutual

/-- String coercion used by `msg += delta` (JS ToString). -/
def jsToString : JSValue → String
  | .vNull => "null"
  | .vUndefined => "undefined"
  | .vBool b => cond b "true" "false"
  | .vNum n => toString n
  | .vStr s => s
  | .vArr xs => jsArrToString xs
  | .vObj _ => "[object Object]"

/-- Array ToString: elements joined by commas. -/
def jsArrToString : List JSValue → String
  | [] => ""
  | [x] => jsElemToString x
  | x :: xs => jsElemToString x ++ "," ++ jsArrToString xs

/-- Array elements stringify null and undefined to the empty string. -/
def jsElemToString : JSValue → String
  | .vNull => ""
  | .vUndefined => ""
  | v => jsToString v

end

/-! ## Delta extractor (src/util.js, parseDelta, lines 57-65) -/

/-- JSON.parse through the oracle: throws (error) when the oracle fails. -/
def parseJson (p : String → Option JSValue) (msg : String) : Except Unit JSValue :=
  match p msg with
  | some v => .ok v
  | none => .error ()

/-- Guard `data && data.delta && data.delta.text` with JS short-circuit: each member
access here is performed on a truthy receiver, hence never throws. -/
def hasDeltaText (data : JSValue) : Bool :=
  truthy data &&
    (match getField data "delta" with
     | .ok d =>
         truthy d &&
           (match getField d "text" with
            | .ok t => truthy t
            | .error _ => false)
     | .error _ => false)

/-- Read `data.delta.text` (the Anthropic shape). -/
def deltaText (data : JSValue) : Except Unit JSValue := do
  let d ← getField data "delta"
  getField d "text"

/-- Read `data.choices[0].delta.content` (the OpenAI shape). -/
def choicesContent (data : JSValue) : Except Unit JSValue := do
  let cs ← getField data "choices"
  let c0 ← getIndex cs 0
  let d ← getField c0 "delta"
  getField d "content"

/-- Body of parseDelta before the catch: slice off the 6-character event prefix,
JSON.parse the payload, return `data.delta.text` when the Anthropic guard holds,
else `data.choices[0].delta.content`. -/
def parseDeltaTry (p : String → Option JSValue) (line : String) : Except Unit JSValue := do
  let data ← parseJson p (String.drop line 6)
  if hasDeltaText data then
    deltaText data
  else
    choicesContent data

/-- parseDelta: the whole body is wrapped in try/catch, every thrown error becomes
the empty string, so the extractor is total and never raises to its caller. -/
def parseDelta (p : String → Option JSValue) (line : String) : JSValue :=
  match parseDeltaTry p line with
  | .ok v => v
  | .error _ => .vStr ""

/-- Accumulation step of consumeStreamAsync's line handler combined with
`msg += delta`: falsy deltas are dropped (`if (delta) onLine(delta)`). -/
def appendDelta (m : String) (d : JSValue) : String :=
  if truthy d then m ++ jsToString d else m

/-- consumeStreamAsync viewed denotationally: fold the line handler over the
stream's lines in order. -/
def consumeLines (p : String → Option JSValue) (lines : List String) (m : String) : String :=
  lines.foldl (fun acc l => appendDelta acc (parseDelta p l)) m

/-- Truthiness of the result of a member-access chain that may throw. -/
def exTruthy : Except Unit JSValue → Bool
  | .error _ => false
  | .ok v => truthy v

/-! ## Tag extractor (src/util.js, extractTags lines 14-33, parseXml lines 36-48) -/

/-- Regex word character: the JS `\w` class without the unicode flag. -/
def isWordChar (c : Char) : Bool :=
  c.isAlpha || c.isDigit || c == '_'

/-- Whitespace removed by String.prototype.trim (ASCII part). -/
def isJsSpace (c : Char) : Bool :=
  c == ' ' || c == '\t' || c == '\n' || c == '\r' || c == '\x0b' || c == '\x0c'

/-- JS String.prototype.trim on a character list. -/
def jsTrim (cs : List Char) : List Char :=
  ((cs.dropWhile isJsSpace).reverse.dropWhile isJsSpace).reverse

/-- JS String.prototype.toLowerCase restricted to ASCII (tag names are `\w+`). -/
def lowerStr (s : String) : String :=
  String.mk (s.data.map Char.toLower)

/-- Does the pattern occur literally at the head of the text? -/
def beginsWith : List Char → List Char → Bool
  | [], _ => true
  | _ :: _, [] => false
  | p :: ps, c :: cs => p == c && beginsWith ps cs

/-- Match the opening `<(\w+)>` of the tag regex at the current position:
a `<`, a greedy nonempty run of word characters, then `>`.  Returns the tag
name and the text after the `>`. -/
def tryOpen : List Char → Option (List Char × List Char)
  | '<' :: rest =>
      let name := rest.takeWhile isWordChar
      match rest.drop name.length with
      | '>' :: after =>
          if name.isEmpty then none else some (name, after)
      | _ => none
  | _ => none

/-- Lazy content match `([\s\S]*?)(?:<\/\1>|$)`: the content runs up to the first
matching close tag `</name>` (case-sensitive backreference); if no close tag
occurs the content runs to the end of the text.  Returns the content and the
text after the match. -/
def takeClose (name : List Char) : List Char → List Char × List Char
  | [] => ([], [])
  | c :: cs =>
      if beginsWith ('<' :: '/' :: (name ++ ['>'])) (c :: cs) then
        ([], (c :: cs).drop (name.length + 3))
      else
        let r := takeClose name cs
        (c :: r.1, r.2)

/-- One regex.exec loop of extractTags: repeatedly find the next match and emit
the lower-cased name with the trimmed content.  Each iteration consumes at least
one character, so the number of iterations is bounded by the input length; the
fuel argument carries that bound. -/
def scanAux : Nat → List Char → List (String × String)
  | 0, _ => []
  | _ + 1, [] => []
  | fuel + 1, c :: cs =>
      match tryOpen (c :: cs) with
      | some (name, after) =>
          let r := takeClose name after
          (lowerStr (String.mk name), String.mk (jsTrim r.1)) :: scanAux fuel r.2
      | none => scanAux fuel cs

/-- All matches of the tag regex over the text, in order. -/
def scanTags (text : String) : List (String × String) :=
  scanAux text.data.length text.data

/-- Value stored per tag: a scalar for one occurrence, an ordered list once the
tag recurs. -/
inductive TagValue where
  | scalar (s : String)
  | arrT (ss : List String)
deriving DecidableEq

/-- The res object of extractTags: string-keyed map in insertion order.  The
JS object is modelled as a plain finite map; inherited Object.prototype
properties are out of scope. -/
abbrev TagMap := List (String × TagValue)

/-- Object lookup res[k]. -/
def lookupTag : TagMap → String → Option TagValue
  | [], _ => none
  | (k', v) :: m, k => if k' = k then some v else lookupTag m k

/-- Object update `res[k] = v`: overwrite in place, or append a new key. -/
def setKey : TagMap → String → TagValue → TagMap
  | [], k, v => [(k, v)]
  | (k', v') :: m, k, v =>
      if k' = k then (k, v) :: m else (k', v') :: setKey m k v

/-- Loop body of extractTags: first occurrence stores a scalar, the second
promotes to a two-element array, each later one appends. -/
def addMatch (m : TagMap) (k v : String) : TagMap :=
  match lookupTag m k with
  | some (.scalar old) => setKey m k (.arrT [old, v])
  | some (.arrT xs) => setKey m k (.arrT (xs ++ [v]))
  | none => setKey m k (.scalar v)

/-- Fold the match list into the res object. -/
def buildMap (ms : List (String × String)) : TagMap :=
  ms.foldl (fun res kv => addMatch res kv.1 kv.2) []

/-- extractTags (src/util.js lines 14-33). -/
def extractTags (text : String) : TagMap :=
  buildMap (scanTags text)

/-- Truthiness of a stored tag value: the empty scalar is falsy, every array is
truthy (JS arrays are objects). -/
def tagTruthy : TagValue → Bool
  | .scalar s => s != ""
  | .arrT _ => true

/-- parseXml (src/util.js lines 36-48): extract all tags, then keep only the
allow-listed ones (allow-list lower-cased too) whose stored value is truthy.
The source's try/catch only rethrows, and extractTags never throws, so the
function is pure. -/
def parseXml (msg : String) (xmlTags : List String) : TagMap :=
  let data := extractTags msg
  xmlTags.foldl
    (fun res tag =>
      let t := lowerStr tag
      match lookupTag data t with
      | some v => if tagTruthy v then setKey res t v else res
      | none => res)
    []

/-- Contents of all occurrences of a key among the scanned matches, in order. -/
def valuesOf (k : String) (ms : List (String × String)) : List String :=
  ms.foldr (fun kv acc => if kv.1 = k then kv.2 :: acc else acc) []

/-- The value extractTags is expected to store for a given occurrence list. -/
def renderOcc : List String → Option TagValue
  | [] => none
  | [v] => some (.scalar v)
  | vs => some (.arrT vs)

/-! ## The chat call (src/unnamed/part_001, lines 45-136)

The response handler
```text
async (res) => \x7b
  if (res.statusCode >= 400) return handleError(res);
  let msg = prefill, isUpdating = false, chain = Promise.resolve();
  let count = 0;
  await consumeStreamAsync(res, delta => \x7b
    msg += delta;
    if (onUpdate && !isUpdating) chain = chain.then(async () => \x7b
      count++;
      isUpdating = true;
      await onUpdate(parseResponse(msg), count);
      setTimeout(() => isUpdating = false, 150);
    \x7d);
  \x7d);
  await chain;
  await finalResponse(msg);
\x7d
```
is embedded as a transition system.  The chain promise is represented by the
number of scheduled-but-unstarted tasks (queued), an in-flight marker (running)
and a rejection flag (chainRejected); promise semantics make the tasks run
strictly one after another, each reading the then-current msg.  The outer
promise's settlements are the Outcome type; note that the handler itself never
calls reject, so a throw inside it (callback rejection, parseJson failure)
escapes as an unhandled rejection and the chat promise never settles: this is
the hungO outcome. -/

/-- Requested output mode; json and xml are mutually exclusive (chat throws
otherwise), so a single discriminant is faithful. -/
inductive Mode where
  | raw
  | jsonM
  | xmlM (tags : List String)

/-- ChatResult: raw text, parsed JSON, or a TagMap. -/
inductive ChatValue where
  | rawV (s : String)
  | jsonV (v : JSValue)
  | xmlV (m : TagMap)

/-- Static configuration of one chat call. -/
structure Cfg where
  jsonParse : String → Option JSValue
  mode : Mode
  hasOnUpdate : Bool
  /-- Behaviour of the caller's onUpdate: given the snapshot and the sequence
  argument (null for the terminal flush), does this invocation reject? -/
  cbFails : ChatValue → Option Nat → Bool
  prefill : String

/-- parseResponse (part_001 lines 75-79): json ⇒ parseJson (throws on bad text),
xml ⇒ parseXml with the allow-list, else return the raw message. -/
def parseResponse (cfg : Cfg) (msg : String) : Except Unit ChatValue :=
  match cfg.mode with
  | .jsonM =>
      match parseJson cfg.jsonParse msg with
      | .ok v => .ok (.jsonV v)
      | .error e => .error e
  | .xmlM tags => .ok (.xmlV (parseXml msg tags))
  | .raw => .ok (.rawV msg)

/-- Settlement of the promise returned by chat.  resolvedO and rejectedO are
`resolve(...)` and `reject(...)`; hungO marks a run whose handler threw with no
catch wired to reject, so the promise never settles.  The rejectedO constructor
is produced only by the transport paths (timeout, client error) outside this
model; no step below ever emits it. -/
inductive Outcome where
  | resolvedO (v : ChatValue)
  | rejectedO (e : String)
  | hungO

/-- Control position of the response handler. -/
inductive Phase where
  | streaming
  | awaitChain
  | finalizing
  | done
deriving DecidableEq

/-- Observable history of progress-callback invocations: callStart records the
snapshot and the sequence argument (none = the terminal flush), callEnd records
the invocation settling. -/
inductive LogEntry where
  | callStart (v : ChatValue) (seq : Option Nat)
  | callEnd

/-- Is this entry the start of the terminal (sequence = null) invocation? -/
def isTermStart : LogEntry → Bool
  | .callStart _ none => true
  | _ => false

/-- No terminal invocation starts in this log fragment. -/
def termFree (l : List LogEntry) : Prop :=
  ∀ e ∈ l, isTermStart e = false

/-- Session state of one chat call. -/
structure S where
  /-- The accumulated message, seeded with the prefill. -/
  msg : String
  /-- Non-empty deltas not yet delivered by the stream. -/
  pending : List String
  isUpdating : Bool
  /-- Chain tasks scheduled by `chain.then` but not yet started. -/
  queued : Nat
  /-- A streaming invocation is in flight; the payload records whether its
  callback will reject. -/
  running : Option Bool
  /-- The terminal invocation is in flight: snapshot and whether it rejects. -/
  termRunning : Option (ChatValue × Bool)
  /-- Pending 150 ms cooldown timers. -/
  timers : Nat
  count : Nat
  chainRejected : Bool
  phase : Phase
  outcome : Option Outcome
  /-- What handleError logged: status code and best-effort parsed body. -/
  errRep : Option (Nat × (String ⊕ JSValue))
  log : List LogEntry

/-- Initial state of the streaming path (status < 400). -/
def initStream (cfg : Cfg) (ds : List String) : S :=
  { msg := cfg.prefill, pending := ds, isUpdating := false, queued := 0,
    running := none, termRunning := none, timers := 0, count := 0,
    chainRejected := false, phase := .streaming, outcome := none,
    errRep := none, log := [] }

/-- handleError's report (part_001 lines 89-101): the drained body, JSON-parsed
when possible, logged together with the status code. -/
def errReport (cfg : Cfg) (status : Nat) (body : String) : Nat × (String ⊕ JSValue) :=
  (status, match cfg.jsonParse body with
           | some v => Sum.inr v
           | none => Sum.inl body)

/-- Entry of the response handler: a status of 400 or more goes to handleError,
which only logs — neither resolve nor reject is ever called on that path, so
the call is permanently unsettled (hungO) with the error report recorded.
Otherwise the streaming session starts. -/
def initChat (cfg : Cfg) (status : Nat) (body : String) (ds : List String) : S :=
  if 400 ≤ status then
    { initStream cfg [] with
      phase := .done
      outcome := some .hungO
      errRep := some (errReport cfg status body) }
  else
    initStream cfg ds

/-- Atomic events of the event loop during one chat call. -/
inductive Action where
  /-- A line event delivers the next non-empty delta (the handler appends it and
  possibly chains a task). -/
  | arrive
  /-- A queued chain task starts: count++, isUpdating = true, parseResponse the
  current msg, invoke the callback. -/
  | taskStart
  /-- The in-flight callback settles; on success a cooldown timer is scheduled,
  on rejection the chain becomes rejected. -/
  | taskEnd
  /-- A cooldown setTimeout fires: isUpdating = false. -/
  | timerFire
  /-- The stream closes; consumeStreamAsync resolves. -/
  | closeEv
  /-- `await chain` completes on a fulfilled, drained chain: finalResponse runs,
  parsing the message and starting the terminal invocation (or resolving at
  once when no callback is configured). -/
  | chainDone
  /-- `await chain` throws on a rejected chain: the handler's rejection is
  unhandled and the call never settles. -/
  | chainFail
  /-- The terminal invocation settles: resolve on success, unhandled rejection
  on failure. -/
  | termEnd

/-- One small step; none when the event is not enabled in this state. -/
def step (cfg : Cfg) (s : S) : Action → Option S
  | .arrive =>
      match s.phase, s.pending with
      | .streaming, d :: rest =>
          some { s with
                 msg := s.msg ++ d
                 pending := rest
                 queued := if cfg.hasOnUpdate && !s.isUpdating then s.queued + 1 else s.queued }
      | _, _ => none
  | .taskStart =>
      if (s.phase = .streaming ∨ s.phase = .awaitChain) ∧
          s.queued ≠ 0 ∧ s.running = none ∧ s.chainRejected = false then
        match parseResponse cfg s.msg with
        | .error _ =>
            some { s with
                   count := s.count + 1
                   isUpdating := true
                   queued := s.queued - 1
                   chainRejected := true }
        | .ok v =>
            some { s with
                   count := s.count + 1
                   isUpdating := true
                   queued := s.queued - 1
                   running := some (cfg.cbFails v (some (s.count + 1)))
                   log := s.log ++ [.callStart v (some (s.count + 1))] }
      else none
  | .taskEnd =>
      match s.running with
      | some fails =>
          if fails then
            some { s with
                   running := none
                   chainRejected := true
                   log := s.log ++ [.callEnd] }
          else
            some { s with
                   running := none
                   timers := s.timers + 1
                   log := s.log ++ [.callEnd] }
      | none => none
  | .timerFire =>
      if s.timers ≠ 0 then
        some { s with timers := s.timers - 1, isUpdating := false }
      else none
  | .closeEv =>
      match s.phase, s.pending with
      | .streaming, [] => some { s with phase := .awaitChain }
      | _, _ => none
  | .chainDone =>
      if s.phase = .awaitChain ∧ s.queued = 0 ∧ s.running = none ∧
          s.chainRejected = false then
        match parseResponse cfg s.msg with
        | .error _ => some { s with phase := .done, outcome := some .hungO }
        | .ok v =>
            if cfg.hasOnUpdate then
              some { s with
                     phase := .finalizing
                     termRunning := some (v, cfg.cbFails v none)
                     log := s.log ++ [.callStart v none] }
            else
              some { s with phase := .done, outcome := some (.resolvedO v) }
      else none
  | .chainFail =>
      if s.phase = .awaitChain ∧ s.chainRejected = true ∧ s.running = none then
        some { s with phase := .done, outcome := some .hungO }
      else none
  | .termEnd =>
      match s.phase, s.termRunning with
      | .finalizing, some (v, fails) =>
          some { s with
                 termRunning := none
                 phase := .done
                 log := s.log ++ [.callEnd]
                 outcome := some (if fails then .hungO else .resolvedO v) }
      | _, _ => none

/-- Run a list of events in order; none when some event was not enabled. -/
def runActs (cfg : Cfg) : S → List Action → Option S
  | s, [] => some s
  | s, a :: as =>
      match step cfg s a with
      | some s' => runActs cfg s' as
      | none => none

/-- Concatenation of a list of deltas. -/
def strConcat : List String → String
  | [] => ""
  | s :: rest => s ++ strConcat rest

/-- Number of invocations currently executing. -/
def inFlightN (s : S) : Nat :=
  (if s.running.isSome then 1 else 0) + (if s.termRunning.isSome then 1 else 0)

/-- Fold step for the mutual-exclusion check: a callStart is admissible only
when no invocation is in flight, a callEnd only when exactly one is. -/
def balStep : Option Nat → LogEntry → Option Nat
  | none, _ => none
  | some n, .callStart _ _ => if n = 0 then some 1 else none
  | some n, .callEnd => if n = 1 then some 0 else none

/-- Scans the invocation log; yields the number of invocations in flight at the
end, and none exactly when some invocation started while another was still
executing (or an end had no matching start). -/
def balance (log : List LogEntry) : Option Nat :=
  log.foldl balStep (some 0)

/-! ## Helper lemmas -/

theorem strAppend_assoc (a b c : String) : a ++ b ++ c = a ++ (b ++ c) := by
  rcases a with ⟨la⟩; rcases b with ⟨lb⟩; rcases c with ⟨lc⟩
  show String.mk (la ++ lb ++ lc) = String.mk (la ++ (lb ++ lc))
  rw [List.append_assoc]

theorem strAppend_empty (a : String) : a ++ "" = a := by
  rcases a with ⟨la⟩
  show String.mk (la ++ []) = String.mk la
  rw [List.append_nil]

theorem balance_append (l : List LogEntry) (e : LogEntry) :
    balance (l ++ [e]) = balStep (balance l) e := by
  simp [balance, List.foldl_append]

theorem termFree_nil : termFree [] := by
  intro e he; cases he

theorem termFree_append {l : List LogEntry} {e : LogEntry}
    (hl : termFree l) (he : isTermStart e = false) : termFree (l ++ [e]) := by
  intro x hx
  rcases List.mem_append.mp hx with hx | hx
  · exact hl x hx
  · rcases List.mem_singleton.mp hx with rfl; exact he

/-! ## The session invariant -/

/-- Master invariant of the streaming session, established at initStream and
preserved by every enabled step. -/
structure Inv (cfg : Cfg) (ds : List String) (s : S) : Prop where
  /-- The message plus the not-yet-arrived deltas is exactly the prefill plus
  all deltas: accumulation is append-only and in arrival order. -/
  concatEq : s.msg ++ strConcat s.pending = cfg.prefill ++ strConcat ds
  /-- After the stream closes no delta is left. -/
  pendingNil : s.phase ≠ Phase.streaming → s.pending = []
  /-- Streaming invocations only run before finalization. -/
  runPhase : s.running.isSome → s.phase = Phase.streaming ∨ s.phase = Phase.awaitChain
  /-- Before finalResponse there is no terminal invocation, no settlement. -/
  streamSt : s.phase = Phase.streaming ∨ s.phase = Phase.awaitChain →
    s.termRunning = none ∧ s.outcome = none ∧ termFree s.log
  /-- While the terminal invocation is in flight: chain fully drained, exactly
  one terminal start at the end of the log, snapshot = parse of the final
  message. -/
  finalSt : s.phase = Phase.finalizing →
    s.running = none ∧ s.queued = 0 ∧ s.chainRejected = false ∧ s.outcome = none ∧
    cfg.hasOnUpdate = true ∧
    ∃ l v f, s.termRunning = some (v, f) ∧ parseResponse cfg s.msg = Except.ok v ∧
      s.log = l ++ [LogEntry.callStart v none] ∧ termFree l
  /-- The terminal invocation only runs in the finalizing phase. -/
  termPhase : s.termRunning.isSome → s.phase = Phase.finalizing
  /-- Once the chain is rejected no invocation is in flight any more. -/
  rejSt : s.chainRejected = true → s.running = none ∧ s.termRunning = none
  /-- A settlement only exists in the done phase. -/
  outcomePhase : s.outcome.isSome → s.phase = Phase.done
  /-- A resolved call returns the parse of the final message; with a callback
  configured the log ends with the one terminal invocation. -/
  resolvedSt : ∀ v, s.outcome = some (Outcome.resolvedO v) →
    parseResponse cfg s.msg = Except.ok v ∧ s.chainRejected = false ∧
    (cfg.hasOnUpdate = true →
      ∃ l, s.log = l ++ [LogEntry.callStart v none, LogEntry.callEnd] ∧ termFree l)
  /-- The response handler never calls reject. -/
  noReject : ∀ e, s.outcome ≠ some (Outcome.rejectedO e)
  /-- The log is well nested and its running balance is the number of
  invocations currently in flight. -/
  balEq : balance s.log = some (inFlightN s)

theorem init_inv (cfg : Cfg) (ds : List String) : Inv cfg ds (initStream cfg ds) where
  concatEq := rfl
  pendingNil h := absurd rfl h
  runPhase h := by simp [initStream] at h
  streamSt _ := ⟨rfl, rfl, termFree_nil⟩
  finalSt h := by simp [initStream] at h
  termPhase h := by simp [initStream] at h
  rejSt h := by simp [initStream] at h
  outcomePhase h := by simp [initStream] at h
  resolvedSt v h := by simp [initStream] at h
  noReject e h := by simp [initStream] at h
  balEq := rfl

theorem step_inv {cfg : Cfg} {ds : List String} {a : Action} {s s' : S}
    (hI : Inv cfg ds s) (h : step cfg s a = some s') : Inv cfg ds s' := by
  cases a with
  | arrive =>
    rw [step] at h
    split at h
    next d rest hph hpd =>
      cases h
      refine ⟨?_, ?_, ?_, ?_, ?_, ?_, ?_, ?_, ?_, ?_, ?_⟩
      · have := hI.concatEq
        rw [hpd] at this
        simpa [strConcat, strAppend_assoc] using this
      · intro hne; exact absurd hph hne
      · intro hr; exact hI.runPhase hr
      · intro _; exact hI.streamSt (Or.inl hph)
      · intro hf; rw [hph] at hf; cases hf
      · intro ht; have := hI.termPhase ht; rw [hph] at this; cases this
      · exact hI.rejSt
      · intro ho; have := (hI.streamSt (Or.inl hph)).2.1; simp [this] at ho
      · intro v hv; have := (hI.streamSt (Or.inl hph)).2.1; simp [this] at hv
      · intro e hv; have := (hI.streamSt (Or.inl hph)).2.1; simp [this] at hv
      · exact hI.balEq
    next => cases h
  | taskStart =>
    rw [step] at h
    split at h
    next hcond =>
      obtain ⟨hph, hq, hrun, hrej⟩ := hcond
      have hstream := hI.streamSt hph
      split at h
      next herr =>
        cases h
        refine ⟨hI.concatEq, hI.pendingNil, ?_, ?_, ?_, ?_, ?_, ?_, ?_, ?_, ?_⟩
        · intro hr; rw [hrun] at hr; cases hr
        · intro _; exact hstream
        · intro hf; rcases hph with hph | hph <;> rw [hph] at hf <;> cases hf
        · intro ht; simp [hstream.1] at ht
        · intro _; exact ⟨hrun, hstream.1⟩
        · intro ho; simp [hstream.2.1] at ho
        · intro v hv; simp [hstream.2.1] at hv
        · intro e hv; simp [hstream.2.1] at hv
        · exact hI.balEq
      next v hok =>
        cases h
        refine ⟨hI.concatEq, hI.pendingNil, ?_, ?_, ?_, ?_, ?_, ?_, ?_, ?_, ?_⟩
        · intro _; exact hph
        · intro _
          exact ⟨hstream.1, hstream.2.1,
            termFree_append hstream.2.2 rfl⟩
        · intro hf; rcases hph with hph | hph <;> rw [hph] at hf <;> cases hf
        · intro ht; simp [hstream.1] at ht
        · intro hc; rw [hc] at hrej; cases hrej
        · intro ho; simp [hstream.2.1] at ho
        · intro w hv; simp [hstream.2.1] at hv
        · intro e hv; simp [hstream.2.1] at hv
        · show balance (s.log ++ [LogEntry.callStart v (some (s.count + 1))]) = _
          rw [balance_append, hI.balEq]
          simp [inFlightN, hrun, hstream.1, balStep]
    next => cases h
  | taskEnd =>
    rw [step] at h
    split at h
    next fails hrun =>
      have hph := hI.runPhase (by rw [hrun]; rfl)
      have hstream := hI.streamSt hph
      split at h
      next hfails =>
        cases h
        refine ⟨hI.concatEq, hI.pendingNil, ?_, ?_, ?_, ?_, ?_, ?_, ?_, ?_, ?_⟩
        · intro hr; cases hr
        · intro _
          exact ⟨hstream.1, hstream.2.1, termFree_append hstream.2.2 rfl⟩
        · intro hf; rcases hph with hph | hph <;> rw [hph] at hf <;> cases hf
        · intro ht; simp [hstream.1] at ht
        · intro _; exact ⟨rfl, hstream.1⟩
        · intro ho; simp [hstream.2.1] at ho
        · intro w hv; simp [hstream.2.1] at hv
        · intro e hv; simp [hstream.2.1] at hv
        · show balance (s.log ++ [LogEntry.callEnd]) = _
          rw [balance_append, hI.balEq]
          simp [inFlightN, hrun, hstream.1, balStep]
      next hfails =>
        cases h
        refine ⟨hI.concatEq, hI.pendingNil, ?_, ?_, ?_, ?_, ?_, ?_, ?_, ?_, ?_⟩
        · intro hr; cases hr
        · intro _
          exact ⟨hstream.1, hstream.2.1, termFree_append hstream.2.2 rfl⟩
        · intro hf; rcases hph with hph | hph <;> rw [hph] at hf <;> cases hf
        · intro ht; simp [hstream.1] at ht
        · intro hc; exact ⟨rfl, hstream.1⟩
        · intro ho; simp [hstream.2.1] at ho
        · intro w hv; simp [hstream.2.1] at hv
        · intro e hv; simp [hstream.2.1] at hv
        · show balance (s.log ++ [LogEntry.callEnd]) = _
          rw [balance_append, hI.balEq]
          simp [inFlightN, hrun, hstream.1, balStep]
    next => cases h
  | timerFire =>
    rw [step] at h
    split at h
    next ht =>
      cases h
      exact ⟨hI.concatEq, hI.pendingNil, hI.runPhase, hI.streamSt, hI.finalSt,
        hI.termPhase, hI.rejSt, hI.outcomePhase, hI.resolvedSt, hI.noReject, hI.balEq⟩
    next => cases h
  | closeEv =>
    rw [step] at h
    split at h
    next hph hpd =>
      cases h
      have hstream := hI.streamSt (Or.inl hph)
      refine ⟨hI.concatEq, ?_, ?_, ?_, ?_, ?_, hI.rejSt, ?_, ?_, ?_, hI.balEq⟩
      · intro _; exact hpd
      · intro _; exact Or.inr rfl
      · intro _; exact hstream
      · intro hf; cases hf
      · intro ht; simp [hstream.1] at ht
      · intro ho; simp [hstream.2.1] at ho
      · intro v hv; simp [hstream.2.1] at hv
      · intro e hv; simp [hstream.2.1] at hv
    next => cases h
  | chainDone =>
    rw [step] at h
    split at h
    next hcond =>
      obtain ⟨hph, hq, hrun, hrej⟩ := hcond
      have hstream := hI.streamSt (Or.inr hph)
      have hpd := hI.pendingNil (by rw [hph]; intro hx; cases hx)
      split at h
      next herr =>
        cases h
        refine ⟨hI.concatEq, ?_, ?_, ?_, ?_, ?_, ?_, ?_, ?_, ?_, ?_⟩
        · intro _; exact hpd
        · intro hr; rw [hrun] at hr; cases hr
        · rintro (hx | hx) <;> cases hx
        · intro hf; cases hf
        · intro ht; simp [hstream.1] at ht
        · intro _; exact ⟨hrun, hstream.1⟩
        · intro _; rfl
        · intro v hv; cases hv
        · intro e hv; cases hv
        · exact hI.balEq
      next v hok =>
        split at h
        next hupd =>
          cases h
          refine ⟨hI.concatEq, ?_, ?_, ?_, ?_, ?_, ?_, ?_, ?_, ?_, ?_⟩
          · intro _; exact hpd
          · intro hr; rw [hrun] at hr; cases hr
          · rintro (hx | hx) <;> cases hx
          · intro _
            exact ⟨hrun, hq, hrej, hstream.2.1, hupd,
              s.log, v, cfg.cbFails v none, rfl, hok, rfl, hstream.2.2⟩
          · intro _; rfl
          · intro hc; rw [hc] at hrej; cases hrej
          · intro ho; simp [hstream.2.1] at ho
          · intro w hv; simp [hstream.2.1] at hv
          · intro e hv; simp [hstream.2.1] at hv
          · show balance (s.log ++ [LogEntry.callStart v none]) = _
            rw [balance_append, hI.balEq]
            simp [inFlightN, hrun, hstream.1, balStep]
        next hupd =>
          cases h
          refine ⟨hI.concatEq, ?_, ?_, ?_, ?_, ?_, ?_, ?_, ?_, ?_, ?_⟩
          · intro _; exact hpd
          · intro hr; rw [hrun] at hr; cases hr
          · rintro (hx | hx) <;> cases hx
          · intro hf; cases hf
          · intro ht; simp [hstream.1] at ht
          · intro _; exact ⟨hrun, hstream.1⟩
          · intro _; rfl
          · intro w hv
            have hvw : Outcome.resolvedO v = Outcome.resolvedO w := Option.some.inj hv
            injection hvw with hvw
            subst hvw
            exact ⟨hok, hrej, fun hu => absurd hu hupd⟩
          · intro e hv
            have := Option.some.inj hv
            cases this
          · exact hI.balEq
    next => cases h
  | chainFail =>
    rw [step] at h
    split at h
    next hcond =>
      obtain ⟨hph, hrej, hrun⟩ := hcond
      have hstream := hI.streamSt (Or.inr hph)
      have hpd := hI.pendingNil (by rw [hph]; intro hx; cases hx)
      cases h
      refine ⟨hI.concatEq, ?_, ?_, ?_, ?_, ?_, ?_, ?_, ?_, ?_, ?_⟩
      · intro _; exact hpd
      · intro hr; rw [hrun] at hr; cases hr
      · rintro (hx | hx) <;> cases hx
      · intro hf; cases hf
      · intro ht; simp [hstream.1] at ht
      · intro _; exact ⟨hrun, hstream.1⟩
      · intro _; rfl
      · intro v hv; cases hv
      · intro e hv; cases hv
      · exact hI.balEq
    next => cases h
  | termEnd =>
    rw [step] at h
    split at h
    next v fails hph hterm =>
      obtain ⟨hrun, hq, hrej, hout, hupd, l, w, f, hterm', hok, hlog, hfree⟩ :=
        hI.finalSt hph
      rw [hterm] at hterm'
      have hpair := Option.some.inj hterm'
      have hw : v = w := congrArg Prod.fst hpair
      have hf2 : fails = f := congrArg Prod.snd hpair
      subst hw
      subst hf2
      cases h
      refine ⟨hI.concatEq, ?_, ?_, ?_, ?_, ?_, ?_, ?_, ?_, ?_, ?_⟩
      · intro _; exact hI.pendingNil (by rw [hph]; intro hx; cases hx)
      · intro hr; rw [hrun] at hr; cases hr
      · rintro (hx | hx) <;> cases hx
      · intro hf; cases hf
      · intro ht; cases ht
      · intro hc; rw [hc] at hrej; cases hrej
      · intro _; rfl
      · intro u hu
        by_cases hf : fails
        · simp [hf] at hu
        · simp [hf] at hu
          subst hu
          refine ⟨hok, hrej, fun _ => ⟨l, ?_, hfree⟩⟩
          rw [hlog, List.append_assoc]
          rfl
      · intro e he
        by_cases hf : fails <;> simp [hf] at he
      · show balance (s.log ++ [LogEntry.callEnd]) = _
        rw [balance_append, hI.balEq]
        simp [inFlightN, hrun, hterm, balStep]
    next => cases h

theorem runActs_inv {cfg : Cfg} {ds : List String} :
    ∀ {acts : List Action} {s s' : S}, Inv cfg ds s →
      runActs cfg s acts = some s' → Inv cfg ds s' := by
  intro acts
  induction acts with
  | nil =>
    intro s s' hI h
    cases h
    exact hI
  | cons a as ih =>
    intro s s' hI h
    simp only [runActs] at h
    cases hs : step cfg s a with
    | none => rw [hs] at h; cases h
    | some s1 =>
      rw [hs] at h
      exact ih (step_inv hI hs) h

/-- Once the chain promise is rejected, no step extends the invocation log and
the rejection is permanent: subsequently chained tasks are skipped, and the
only remaining control transfer is `await chain` throwing. -/
theorem step_frozen {cfg : Cfg} {ds : List String} {a : Action} {s s' : S}
    (hI : Inv cfg ds s) (hrej : s.chainRejected = true)
    (h : step cfg s a = some s') : s'.log = s.log ∧ s'.chainRejected = true := by
  obtain ⟨hrun, hterm⟩ := hI.rejSt hrej
  cases a with
  | arrive =>
    rw [step] at h
    split at h
    next => cases h; exact ⟨rfl, hrej⟩
    next => cases h
  | taskStart =>
    rw [step] at h
    split at h
    next hcond =>
      have := hcond.2.2.2
      rw [hrej] at this
      cases this
    next => cases h
  | taskEnd =>
    rw [step] at h
    split at h
    next fails heq => rw [hrun] at heq; cases heq
    next => cases h
  | timerFire =>
    rw [step] at h
    split at h
    next => cases h; exact ⟨rfl, hrej⟩
    next => cases h
  | closeEv =>
    rw [step] at h
    split at h
    next => cases h; exact ⟨rfl, hrej⟩
    next => cases h
  | chainDone =>
    rw [step] at h
    split at h
    next hcond =>
      have := hcond.2.2.2
      rw [hrej] at this
      cases this
    next => cases h
  | chainFail =>
    rw [step] at h
    split at h
    next => cases h; exact ⟨rfl, hrej⟩
    next => cases h
  | termEnd =>
    rw [step] at h
    split at h
    next v fails hph heq => rw [hterm] at heq; cases heq
    next => cases h

theorem runActs_frozen {cfg : Cfg} {ds : List String} :
    ∀ {acts : List Action} {s s' : S}, Inv cfg ds s → s.chainRejected = true →
      runActs cfg s acts = some s' →
      s'.log = s.log ∧ s'.chainRejected = true := by
  intro acts
  induction acts with
  | nil =>
    intro s s' _ hrej h
    cases h
    exact ⟨rfl, hrej⟩
  | cons a as ih =>
    intro s s' hI hrej h
    simp only [runActs] at h
    cases hs : step cfg s a with
    | none => rw [hs] at h; cases h
    | some s1 =>
      rw [hs] at h
      obtain ⟨hl1, hr1⟩ := step_frozen hI hrej hs
      obtain ⟨hl2, hr2⟩ := ih (step_inv hI hs) hr1 h
      exact ⟨hl2.trans hl1, hr2⟩

/-! ## Tag-map lemmas -/

theorem lookupTag_setKey (m : TagMap) (k : String) (v : TagValue) (k' : String) :
    lookupTag (setKey m k v) k' = if k = k' then some v else lookupTag m k' := by
  induction m with
  | nil => simp [setKey, lookupTag]
  | cons kv m ih =>
    obtain ⟨k1, v1⟩ := kv
    by_cases h1 : k1 = k
    · subst h1
      by_cases h2 : k1 = k' <;> simp [setKey, lookupTag, h2]
    · by_cases h2 : k1 = k'
      · subst h2
        have hne : ¬ k = k1 := fun hx => h1 hx.symm
        simp [setKey, h1, lookupTag, hne]
      · simp [setKey, h1, lookupTag, h2, ih]

/-- Effect of one extractTags loop iteration on lookups. -/
def pushVal : Option TagValue → String → Option TagValue
  | none, v => some (.scalar v)
  | some (.scalar old), v => some (.arrT [old, v])
  | some (.arrT xs), v => some (.arrT (xs ++ [v]))

theorem lookupTag_addMatch (m : TagMap) (k v : String) (k' : String) :
    lookupTag (addMatch m k v) k' =
      if k = k' then pushVal (lookupTag m k) v else lookupTag m k' := by
  cases h : lookupTag m k with
  | none => simp [addMatch, h, pushVal, lookupTag_setKey]
  | some tv =>
    cases tv with
    | scalar old => simp [addMatch, h, pushVal, lookupTag_setKey]
    | arrT xs => simp [addMatch, h, pushVal, lookupTag_setKey]

/-- Iterated pushVal over the remaining occurrences of a key. -/
def pushAll (cur : Option TagValue) : List String → Option TagValue
  | [] => cur
  | v :: vs => pushAll (pushVal cur v) vs

theorem pushAll_arr (vs : List String) :
    ∀ xs, pushAll (some (.arrT xs)) vs = some (.arrT (xs ++ vs)) := by
  induction vs with
  | nil => intro xs; simp [pushAll]
  | cons v vs ih =>
    intro xs
    simp [pushAll, pushVal, ih, List.append_assoc]

theorem pushAll_none (vs : List String) : pushAll none vs = renderOcc vs := by
  cases vs with
  | nil => rfl
  | cons v vs =>
    cases vs with
    | nil => rfl
    | cons w ws =>
      show pushAll (pushVal (some (.scalar v)) w) ws = _
      simp [pushVal, pushAll_arr, renderOcc]

theorem valuesOf_cons (k : String) (kv : String × String) (ms : List (String × String)) :
    valuesOf k (kv :: ms) =
      if kv.1 = k then kv.2 :: valuesOf k ms else valuesOf k ms := by
  simp [valuesOf]

theorem lookup_buildFold (k : String) :
    ∀ (ms : List (String × String)) (res : TagMap),
      lookupTag (ms.foldl (fun r kv => addMatch r kv.1 kv.2) res) k =
        pushAll (lookupTag res k) (valuesOf k ms) := by
  intro ms
  induction ms with
  | nil => intro res; simp [valuesOf, pushAll]
  | cons kv ms ih =>
    intro res
    rw [List.foldl_cons, ih, valuesOf_cons]
    by_cases hk : kv.1 = k
    · simp [hk, lookupTag_addMatch, pushAll]
    · simp [hk, lookupTag_addMatch]

theorem lookup_buildMap (ms : List (String × String)) (k : String) :
    lookupTag (buildMap ms) k = renderOcc (valuesOf k ms) := by
  rw [buildMap, lookup_buildFold]
  show pushAll none (valuesOf k ms) = _
  exact pushAll_none _

theorem parseXml_fold_mem (data : TagMap) :
    ∀ (tags : List String) (res : TagMap) (k : String) (v : TagValue),
      lookupTag (tags.foldl
        (fun res tag =>
          let t := lowerStr tag
          match lookupTag data t with
          | some v => if tagTruthy v then setKey res t v else res
          | none => res) res) k = some v →
      lookupTag res k = some v ∨ k ∈ tags.map lowerStr := by
  intro tags
  induction tags with
  | nil =>
    intro res k v h
    exact Or.inl h
  | cons t tags ih =>
    intro res k v h
    rw [List.foldl_cons] at h
    rcases ih _ k v h with h1 | h1
    · have h1' : lookupTag
          (match lookupTag data (lowerStr t) with
           | some v => if tagTruthy v then setKey res (lowerStr t) v else res
           | none => res) k = some v := h1
      by_cases hk : lowerStr t = k
      · exact Or.inr (by simp [hk.symm])
      · refine Or.inl ?_
        cases hd : lookupTag data (lowerStr t) with
        | none => simpa [hd] using h1'
        | some w =>
          rw [hd] at h1'
          by_cases htr : tagTruthy w
          · simp only [htr, if_pos] at h1'
            rwa [lookupTag_setKey, if_neg hk] at h1'
          · simpa [htr] using h1'
    · exact Or.inr (by simp; exact Or.inr (by simpa using h1))

theorem parseXml_fold_skip (data : TagMap) (k : String)
    (hk : lookupTag data k = some (.scalar "")) :
    ∀ (tags : List String) (res : TagMap),
      lookupTag res k = none →
      lookupTag (tags.foldl
        (fun res tag =>
          let t := lowerStr tag
          match lookupTag data t with
          | some v => if tagTruthy v then setKey res t v else res
          | none => res) res) k = none := by
  intro tags
  induction tags with
  | nil =>
    intro res h
    exact h
  | cons t tags ih =>
    intro res h
    rw [List.foldl_cons]
    refine ih _ ?_
    show lookupTag
        (match lookupTag data (lowerStr t) with
         | some v => if tagTruthy v then setKey res (lowerStr t) v else res
         | none => res) k = none
    by_cases hkt : lowerStr t = k
    · rw [hkt, hk]
      simp [tagTruthy, h]
    · cases hd : lookupTag data (lowerStr t) with
      | none => exact h
      | some w =>
        show lookupTag (if tagTruthy w then setKey res (lowerStr t) w else res) k = none
        by_cases htr : tagTruthy w
        · simp only [htr, if_pos]
          rwa [lookupTag_setKey, if_neg hkt]
        · simpa [htr] using h

/-! ## Concrete configurations and runs used by witnesses and counterexamples -/

/-- Raw mode, no progress callback, prefill "Hi ". -/
def cfgRaw : Cfg :=
  { jsonParse := fun _ => none, mode := .raw, hasOnUpdate := false,
    cbFails := fun _ _ => false, prefill := "Hi " }

/-- Final state of the cfgRaw run over deltas ["ab", "cd"]. -/
def sRaw : S :=
  { msg := "Hi abcd", pending := [], isUpdating := false, queued := 0,
    running := none, termRunning := none, timers := 0, count := 0,
    chainRejected := false, phase := .done,
    outcome := some (.resolvedO (.rawV "Hi abcd")), errRep := none, log := [] }

/-- Raw mode with a progress callback that always succeeds. -/
def cfgUpd : Cfg :=
  { jsonParse := fun _ => none, mode := .raw, hasOnUpdate := true,
    cbFails := fun _ _ => false, prefill := "" }

/-- Final state of the cfgUpd run over the single delta "x": one streaming
invocation then the terminal flush. -/
def sUpd : S :=
  { msg := "x", pending := [], isUpdating := true, queued := 0,
    running := none, termRunning := none, timers := 1, count := 1,
    chainRejected := false, phase := .done,
    outcome := some (.resolvedO (.rawV "x")), errRep := none,
    log := [.callStart (.rawV "x") (some 1), .callEnd,
            .callStart (.rawV "x") none, .callEnd] }

/-- Raw mode with a progress callback whose every invocation rejects. -/
def cfgCb : Cfg :=
  { jsonParse := fun _ => none, mode := .raw, hasOnUpdate := true,
    cbFails := fun _ _ => true, prefill := "" }

/-- State of the cfgCb run right after the first invocation rejected: the chain
is rejected, the second delta has not arrived yet. -/
def sCbMid : S :=
  { msg := "a", pending := ["b"], isUpdating := true, queued := 0,
    running := none, termRunning := none, timers := 0, count := 1,
    chainRejected := true, phase := .streaming, outcome := none,
    errRep := none, log := [.callStart (.rawV "a") (some 1), .callEnd] }

/-- Final state of the cfgCb run: the second delta was still consumed and
appended after the rejection, then `await chain` threw and the call hung. -/
def sCbEnd : S :=
  { sCbMid with
    msg := "ab"
    pending := []
    phase := .done
    outcome := some .hungO }

/-- JSON mode where the intermediate text "1" parses but the final text "1x"
does not (JSON.parse accepts "1" and rejects "1x"). -/
def cfgMid : Cfg :=
  { jsonParse := fun s => if s = "1" then some (.vNum 1) else none,
    mode := .jsonM, hasOnUpdate := true, cbFails := fun _ _ => false,
    prefill := "" }

/-- Final state of the cfgMid run: stream ended, chain fully drained and never
rejected, yet finalResponse threw on parseJson before the terminal invocation,
so the call hung with no terminal callStart in the log. -/
def sMid : S :=
  { msg := "1x", pending := [], isUpdating := true, queued := 0,
    running := none, termRunning := none, timers := 1, count := 1,
    chainRejected := false, phase := .done, outcome := some .hungO,
    errRep := none, log := [.callStart (.jsonV (.vNum 1)) (some 1), .callEnd] }

/-- sMid after its one pending cooldown timer fires; nothing is enabled after. -/
def sMidQuiet : S :=
  { sMid with
    timers := 0
    isUpdating := false }

/-- Configuration used on the HTTP-error path. -/
def cfgHttp : Cfg :=
  { jsonParse := fun _ => none, mode := .raw, hasOnUpdate := false,
    cbFails := fun _ _ => false, prefill := "" }

/-- JSON mode whose oracle parses the object text (the JS JSON.parse accepts
it) to the structured value. -/
def cfgJsonOk : Cfg :=
  { jsonParse := fun s => if s = "\x7b\"a\":1\x7d" then some (.vObj [("a", .vNum 1)]) else none,
    mode := .jsonM, hasOnUpdate := false, cbFails := fun _ _ => false,
    prefill := "" }

/-- Final state of the cfgJsonOk run: resolved with the parsed value. -/
def sJsonOk : S :=
  { msg := "\x7b\"a\":1\x7d", pending := [], isUpdating := false, queued := 0,
    running := none, termRunning := none, timers := 0, count := 0,
    chainRejected := false, phase := .done,
    outcome := some (.resolvedO (.jsonV (.vObj [("a", .vNum 1)]))),
    errRep := none, log := [] }

/-- JSON mode whose oracle rejects everything (JSON.parse throws on
"not json"). -/
def cfgJsonBad : Cfg :=
  { jsonParse := fun _ => none, mode := .jsonM, hasOnUpdate := false,
    cbFails := fun _ _ => false, prefill := "" }

/-- Final state of the cfgJsonBad run: parseJson threw inside finalResponse,
nothing routed the throw to reject, the call never settles. -/
def sJsonBad : S :=
  { msg := "not json", pending := [], isUpdating := false, queued := 0,
    running := none, termRunning := none, timers := 0, count := 0,
    chainRejected := false, phase := .done, outcome := some .hungO,
    errRep := none, log := [] }

/-- On the HTTP-error path no event is ever enabled: handleError only logs. -/
theorem initChat_stuck {cfg : Cfg} {status : Nat} {body : String}
    {ds : List String} (hst : 400 ≤ status) (a : Action) :
    step cfg (initChat cfg status body ds) a = none := by
  rw [initChat, if_pos hst]
  cases a <;> rfl

/-! ## The claims -/

/-- C1: for every sequence of events producing non-empty deltas d1..dN and
every prefill, the value the chat call resolves with in raw mode equals the
concatenation of the prefill and the deltas in arrival order, for every
interleaving of callback executions, cooldown timers and delta arrivals (in
particular for any delay inserted before or after any progress-callback
invocation). -/
theorem chat_raw_result (cfg : Cfg) (ds : List String) (acts : List Action)
    (s : S) (v : ChatValue)
    (hmode : cfg.mode = Mode.raw)
    (hrun : runActs cfg (initStream cfg ds) acts = some s)
    (hres : s.outcome = some (Outcome.resolvedO v)) :
    v = ChatValue.rawV (cfg.prefill ++ strConcat ds) := by
  have hI := runActs_inv (init_inv cfg ds) hrun
  obtain ⟨hok, -, -⟩ := hI.resolvedSt v hres
  have hdone : s.phase = Phase.done := hI.outcomePhase (by rw [hres]; rfl)
  have hpd : s.pending = [] := hI.pendingNil (by rw [hdone]; intro hx; cases hx)
  have hmsg : s.msg = cfg.prefill ++ strConcat ds := by
    have hc := hI.concatEq
    rw [hpd] at hc
    rwa [show strConcat [] = "" from rfl, strAppend_empty] at hc
  have h2 : (Except.ok (ChatValue.rawV s.msg) : Except Unit ChatValue) = Except.ok v := by
    rw [parseResponse, hmode] at hok
    exact hok
  have h3 := Except.ok.inj h2
  rw [← h3, hmsg]

/-- Witness for C1: the cfgRaw run over ["ab", "cd"] resolves with exactly
"Hi " ++ "ab" ++ "cd". -/
theorem chat_raw_result_witness :
    ChatValue.rawV "Hi abcd" = ChatValue.rawV (cfgRaw.prefill ++ strConcat ["ab", "cd"]) :=
  chat_raw_result cfgRaw ["ab", "cd"] [.arrive, .arrive, .closeEv, .chainDone]
    sRaw (ChatValue.rawV "Hi abcd") rfl rfl rfl

/-- C2 (amended): whenever the call resolves and a progress callback is
configured, the log ends with exactly one terminal invocation — sequence
argument null, snapshot equal to the resolved value, which is the parse of the
complete final accumulated message — followed by its completion, and no other
terminal invocation ever occurs.  (The unamended claim fails when finalization
parsing throws: see the counterexample.) -/
theorem chat_terminal_update (cfg : Cfg) (ds : List String) (acts : List Action)
    (s : S) (v : ChatValue)
    (hcb : cfg.hasOnUpdate = true)
    (hrun : runActs cfg (initStream cfg ds) acts = some s)
    (hres : s.outcome = some (Outcome.resolvedO v)) :
    parseResponse cfg s.msg = Except.ok v ∧
    ∃ l, s.log = l ++ [LogEntry.callStart v none, LogEntry.callEnd] ∧ termFree l := by
  have hI := runActs_inv (init_inv cfg ds) hrun
  obtain ⟨hok, -, hlog⟩ := hI.resolvedSt v hres
  exact ⟨hok, hlog hcb⟩

/-- Counterexample for C2 as stated: in JSON mode with final text "1x" (the
intermediate text "1" parses, the final text does not), the stream ends, the
chain is idle (queued = 0, nothing running, not rejected) and a callback is
configured, yet the log contains only the one streaming invocation — no
terminal invocation with null sequence ever occurs — and the call never
settles; after the last cooldown timer fires nothing is enabled at all. -/
theorem chat_terminal_update_cex :
    runActs cfgMid (initStream cfgMid ["1", "x"])
      [.arrive, .taskStart, .taskEnd, .arrive, .closeEv, .chainDone] = some sMid ∧
    sMid.outcome = some Outcome.hungO ∧
    sMid.log = [.callStart (.jsonV (.vNum 1)) (some 1), .callEnd] ∧
    sMid.chainRejected = false ∧ sMid.queued = 0 ∧ sMid.running = none ∧
    step cfgMid sMid .timerFire = some sMidQuiet ∧
    (∀ a, step cfgMid sMidQuiet a = none) ∧ sMidQuiet.log = sMid.log :=
  ⟨rfl, rfl, rfl, rfl, rfl, rfl, rfl, by intro a; cases a <;> rfl, rfl⟩

/-- Witness for C2: the cfgUpd run over ["x"] resolves, and its log is one
streaming invocation followed by the terminal one. -/
theorem chat_terminal_update_witness :
    parseResponse cfgUpd sUpd.msg = Except.ok (ChatValue.rawV "x") ∧
    ∃ l, sUpd.log = l ++ [LogEntry.callStart (ChatValue.rawV "x") none, LogEntry.callEnd] ∧
      termFree l :=
  chat_terminal_update cfgUpd ["x"]
    [.arrive, .taskStart, .taskEnd, .closeEv, .chainDone, .termEnd]
    sUpd (ChatValue.rawV "x") rfl rfl rfl

/-- C3: at most one progress-callback invocation is executing at any instant,
for every timing of delta arrival and callback completion: the invocation log
of every reachable state is well nested (the balance fold never fails) and its
in-flight count never exceeds one. -/
theorem chat_callback_mutex (cfg : Cfg) (ds : List String) (acts : List Action)
    (s : S)
    (hrun : runActs cfg (initStream cfg ds) acts = some s) :
    ∃ n, n ≤ 1 ∧ balance s.log = some n := by
  have hI := runActs_inv (init_inv cfg ds) hrun
  refine ⟨inFlightN s, ?_, hI.balEq⟩
  cases hr : s.running with
  | some b =>
    have hph := hI.runPhase (by rw [hr]; rfl)
    have htn := (hI.streamSt hph).1
    simp [inFlightN, hr, htn]
  | none =>
    cases ht : s.termRunning <;> simp [inFlightN, hr, ht]

/-- Witness for C3 at the cfgUpd run over ["x"]. -/
theorem chat_callback_mutex_witness :
    ∃ n, n ≤ 1 ∧ balance sUpd.log = some n :=
  chat_callback_mutex cfgUpd ["x"]
    [.arrive, .taskStart, .taskEnd, .closeEv, .chainDone, .termEnd] sUpd rfl

/-- C4 (amended): once a progress-callback invocation has rejected (the chain
promise is rejected), no further callback invocation ever begins — the log is
frozen — and the call never settles: it neither resolves nor rejects, because
the handler's throw is an unhandled rejection.  Stream events, however, keep
being consumed and appended (see the counterexample). -/
theorem chat_callback_failure_halts (cfg : Cfg) (ds : List String)
    (acts1 acts2 : List Action) (s s' : S)
    (h1 : runActs cfg (initStream cfg ds) acts1 = some s)
    (hrej : s.chainRejected = true)
    (h2 : runActs cfg s acts2 = some s') :
    s'.log = s.log ∧ s'.chainRejected = true ∧
    (s'.outcome = none ∨ s'.outcome = some Outcome.hungO) := by
  have hI := runActs_inv (init_inv cfg ds) h1
  obtain ⟨hlog, hrej'⟩ := runActs_frozen hI hrej h2
  have hI' := runActs_inv hI h2
  refine ⟨hlog, hrej', ?_⟩
  cases ho : s'.outcome with
  | none => exact Or.inl rfl
  | some o =>
    cases o with
    | resolvedO v =>
      have := (hI'.resolvedSt v ho).2.1
      rw [hrej'] at this
      cases this
    | rejectedO e => exact absurd ho (hI'.noReject e)
    | hungO => exact Or.inr rfl

/-- Counterexample for C4 as stated: the first callback invocation rejects,
yet the session keeps processing events (the second delta is consumed and
msg grows to "ab"), and the call ends permanently unsettled (hungO, not a
rejection with any error): no CallbackError rejection exists in the code. -/
theorem chat_callback_failure_cex :
    runActs cfgCb (initStream cfgCb ["a", "b"])
      [.arrive, .taskStart, .taskEnd, .arrive, .closeEv, .chainFail] = some sCbEnd ∧
    sCbEnd.outcome = some Outcome.hungO ∧ sCbEnd.msg = "ab" ∧
    (∀ a, step cfgCb sCbEnd a = none) :=
  ⟨rfl, rfl, rfl, by intro a; cases a <;> rfl⟩

/-- Witness for C4 (amended) at the cfgCb run. -/
theorem chat_callback_failure_halts_witness :
    sCbEnd.log = sCbMid.log ∧ sCbEnd.chainRejected = true ∧
    (sCbEnd.outcome = none ∨ sCbEnd.outcome = some Outcome.hungO) :=
  chat_callback_failure_halts cfgCb ["a", "b"]
    [.arrive, .taskStart, .taskEnd] [.arrive, .closeEv, .chainFail]
    sCbMid sCbEnd rfl rfl rfl

/-- C5 (amended): on every response with status ≥ 400 the error body is
drained and reported (status code with the best-effort parsed body), but the
chat call is left permanently unsettled — handleError only logs, and neither
resolve nor reject is ever called on this path. -/
theorem chat_http_error_unsettled (cfg : Cfg) (status : Nat) (body : String)
    (ds : List String) (acts : List Action) (s : S)
    (hst : 400 ≤ status)
    (hrun : runActs cfg (initChat cfg status body ds) acts = some s) :
    s.outcome = some Outcome.hungO ∧
    s.errRep = some (errReport cfg status body) := by
  have hs : s = initChat cfg status body ds := by
    cases acts with
    | nil =>
      cases hrun
      rfl
    | cons a as =>
      simp only [runActs] at hrun
      rw [initChat_stuck hst a] at hrun
      cases hrun
  subst hs
  rw [initChat, if_pos hst]
  exact ⟨rfl, rfl⟩

/-- Counterexample for C5 as stated: a 500 response logs its drained body but
the call does not reject with any HTTP error — it remains unsettled forever
(no event is enabled after handleError). -/
theorem chat_http_error_cex :
    (initChat cfgHttp 500 "oops" []).outcome = some Outcome.hungO ∧
    (initChat cfgHttp 500 "oops" []).errRep = some (500, Sum.inl "oops") ∧
    (∀ a, step cfgHttp (initChat cfgHttp 500 "oops" []) a = none) :=
  ⟨rfl, rfl, by intro a; cases a <;> rfl⟩

/-- Witness for C5 (amended) at status 500 with body "oops". -/
theorem chat_http_error_unsettled_witness :
    (initChat cfgHttp 500 "oops" []).outcome = some Outcome.hungO ∧
    (initChat cfgHttp 500 "oops" []).errRep = some (errReport cfgHttp 500 "oops") :=
  chat_http_error_unsettled cfgHttp 500 "oops" [] []
    (initChat cfgHttp 500 "oops" []) (by decide) rfl

/-- C6: in JSON mode a valid final text resolves with the parsed structured
value; an invalid final text, however, does not reject with any finalization
error — parseJson's throw escapes the async response handler unhandled and the
call never settles (the spec's FinalizationError rejection existed in the
previous revision of the module but was lost in the current one). -/
theorem chat_json_finalization :
    runActs cfgJsonOk (initStream cfgJsonOk ["\x7b\"a\":1\x7d"])
      [.arrive, .closeEv, .chainDone] = some sJsonOk ∧
    sJsonOk.outcome = some (Outcome.resolvedO (.jsonV (.vObj [("a", .vNum 1)]))) ∧
    runActs cfgJsonBad (initStream cfgJsonBad ["not json"])
      [.arrive, .closeEv, .chainDone] = some sJsonBad ∧
    sJsonBad.outcome = some Outcome.hungO ∧
    (∀ a, step cfgJsonBad sJsonBad a = none) :=
  ⟨rfl, rfl, rfl, rfl, by intro a; cases a <;> rfl⟩

/-- C7: the delta extractor is total — every throw inside its body is caught
to the empty string — and whenever JSON parsing of the payload (after the
6-character prefix strip) fails, or the payload is truthiness-rejected by the
Anthropic guard and the OpenAI chain `choices[0].delta.content` either throws
or yields a falsy value, the extracted delta is falsy and contributes nothing
to the accumulated message. -/
theorem parseDelta_malformed_empty :
    (∀ (p : String → Option JSValue) (line : String) (e : Unit),
       parseDeltaTry p line = .error e → parseDelta p line = .vStr "") ∧
    (∀ (p : String → Option JSValue) (line : String),
       (p (String.drop line 6) = none ∨
        ∃ data, p (String.drop line 6) = some data ∧ hasDeltaText data = false ∧
          exTruthy (choicesContent data) = false) →
       truthy (parseDelta p line) = false ∧
       ∀ m, consumeLines p [line] m = m) := by
  constructor
  · intro p line e h
    rw [parseDelta, h]
  · intro p line h
    have hfalsy : truthy (parseDelta p line) = false := by
      rcases h with hnone | ⟨data, hdata, hA, hC⟩
      · have htry : parseDeltaTry p line = .error () := by
          simp only [parseDeltaTry, parseJson, hnone]
          rfl
        simp [parseDelta, htry, truthy]
      · have htry : parseDeltaTry p line = choicesContent data := by
          simp only [parseDeltaTry, parseJson, hdata]
          show (if hasDeltaText data = true then deltaText data else choicesContent data) =
            choicesContent data
          rw [hA]
          simp
        cases hcc : choicesContent data with
        | error e => simp [parseDelta, htry, hcc, truthy]
        | ok v =>
          have hv : truthy v = false := by rw [hcc] at hC; exact hC
          simp [parseDelta, htry, hcc, hv]
    refine ⟨hfalsy, ?_⟩
    intro m
    simp [consumeLines, appendDelta, hfalsy]

/-- Witness for C7: a line whose payload fails to parse contributes nothing. -/
theorem parseDelta_malformed_empty_witness :
    truthy (parseDelta (fun _ => none) "data: oops") = false ∧
    ∀ m, consumeLines (fun _ => none) ["data: oops"] m = m :=
  parseDelta_malformed_empty.2 (fun _ => none) "data: oops" (Or.inl rfl)

/-- C8: for every input text, the tag extractor maps each lower-cased tag name
to exactly the rendering of its occurrence contents in match order — one
occurrence stays a trimmed scalar, a second occurrence promotes to the ordered
pair, every later occurrence appends — and in particular the promotion example
with three occurrences of x yields the three-element sequence. -/
theorem extractTags_promotion :
    (∀ (text : String) (k : String),
       lookupTag (extractTags text) k = renderOcc (valuesOf k (scanTags text))) ∧
    parseXml "<x>1</x><x>2</x><x>3</x>" ["x"] = [("x", TagValue.arrT ["1", "2", "3"])] :=
  ⟨fun text k => lookup_buildMap (scanTags text) k, rfl⟩

/-- C9: for every text and allow-list, every key present in parseXml's result
is the lower-casing of some allow-listed tag (tags matched but not requested
are discarded), absence is never an error, and the two allow-list examples
hold. -/
theorem parseXml_allowlist :
    (∀ (msg : String) (tags : List String) (k : String) (v : TagValue),
       lookupTag (parseXml msg tags) k = some v → k ∈ tags.map lowerStr) ∧
    parseXml "<a>1</a><b>2</b>" ["a", "b"] =
      [("a", TagValue.scalar "1"), ("b", TagValue.scalar "2")] ∧
    parseXml "<a>1</a><b>2</b>" ["c"] = [] := by
  refine ⟨?_, rfl, rfl⟩
  intro msg tags k v h
  rcases parseXml_fold_mem (extractTags msg) tags [] k v h with h1 | h1
  · cases h1
  · exact h1

/-- Witness for C9: the key "a" of the first example is allow-listed. -/
theorem parseXml_allowlist_witness :
    ("a" : String) ∈ (["a", "b"].map lowerStr) :=
  parseXml_allowlist.1 "<a>1</a><b>2</b>" ["a", "b"] "a" (TagValue.scalar "1") rfl

/-- C10 (amended): a tag stored as an empty scalar — exactly one occurrence
whose content trims to the empty string — is omitted from parseXml's result
even when allow-listed, because presence is tested by truthiness and the empty
string is falsy.  (A recurring tag is stored as an array, which is always
truthy, so it is retained even when every occurrence is empty: see the
counterexample.) -/
theorem parseXml_empty_scalar_omitted (text : String) (tags : List String)
    (k : String)
    (h : lookupTag (extractTags text) k = some (TagValue.scalar "")) :
    lookupTag (parseXml text tags) k = none :=
  parseXml_fold_skip (extractTags text) k h tags [] rfl

/-- Counterexample for C10 as stated: in "<a></a><a></a>" every occurrence of
a trims to empty, yet the tag is present in parseXml's result (as the array of
two empty strings, and arrays are truthy). -/
theorem parseXml_empty_kept_cex :
    lookupTag (parseXml "<a></a><a></a>" ["a"]) "a" = some (TagValue.arrT ["", ""]) :=
  rfl

/-- Witness for C10 (amended): the single empty tag of "<a></a>" is omitted. -/
theorem parseXml_empty_scalar_omitted_witness :
    lookupTag (parseXml "<a></a>" ["a"]) "a" = none :=
  parseXml_empty_scalar_omitted "<a></a>" ["a"] "a" rfl

end PoonLLM
